import Mathlib

/-!
Verification of the move-sequence evaluation and blunder-detection pipeline of
src/chess_app.py: the helper `get_engine_analysis` and the analyzer loop
`analyze_full_game`. Board positions are opaque: a position is identified by
the sequence of moves pushed from the fixed initial position, and the external
Stockfish engine is a parameter mapping a position to either an exception or an
analyse result. Python floats are modelled by rationals (every constant in the
source, 1.5 and ±99.0 and the centipawn divisions by 100, is exactly
representable).
-/

deriving instance DecidableEq for Except

namespace ChessApp

/-- A move is opaque beyond identity; `chess.Move` objects are modelled by
numeric identifiers. -/
abbrev Move := ℕ

/-- A board position, identified by the sequence of moves pushed from the
fixed initial position of the game. -/
abbrev Position := List Move

/-- The white-relative score of one engine `analyse` call, i.e. the value of
`result["score"].white()` (line 44): either a mate distance (positive when the
first side, White, has the winning mate) or a centipawn count. -/
inductive Score where
  | mate (n : ℤ)
  | cp (c : ℤ)
deriving DecidableEq, Repr

/-- The parts of the engine `analyse` result that `get_engine_analysis` reads:
the white-relative score and the principal variation (`result.get("pv")`). -/
structure AnalyseResult where
  score : Score
  pv : List Move
deriving DecidableEq, Repr

/-- The external Stockfish process: for each queried position it either raises
(engine process unreachable or crashed mid-query) or returns an analyse
result. -/
abbrev Engine := Position → Except Unit AnalyseResult

/-- `get_engine_analysis(board, depth_limit)` (src/chess_app.py lines 37-52).
If no Stockfish binary was found (`STOCKFISH_PATH` falsy) it returns the pair
`(None, None)` as a normal value. Otherwise it queries the engine on the
board; the white-relative score is normalized (mate with `score.mate() > 0`
becomes `99.0`, any other mate becomes `-99.0`, a centipawn score `c` becomes
`c / 100.0`) and returned with the first move of the principal variation (or
`None` when the pv is empty). An exception from the engine propagates.

The score normalization of lines 47-50 is split out as `normalizeScore`. -/
def normalizeScore : Score → ℚ
  | .mate n => if 0 < n then 99 else -99
  | .cp c => (c : ℚ) / 100

/-- See `normalizeScore` above: lines 37-52 of src/chess_app.py. -/
def get_engine_analysis (stockfishFound : Bool) (engine : Engine)
    (board : Position) : Except Unit (Option ℚ × Option Move) :=
  if !stockfishFound then .ok (none, none)
  else
    match engine board with
    | .error e => .error e
    | .ok result => .ok (some (normalizeScore result.score), result.pv.head?)

/-- The blunder conditional of src/chess_app.py lines 74-78, as a function of
the 0-based move index `i` and the evaluation difference `diff`: for an even
index (White moved) the flag is `diff < -1.5`, for an odd index (Black moved)
it is `diff > 1.5`. -/
def blunderFlag (i : ℕ) (diff : ℚ) : Bool :=
  if i % 2 = 0 then decide (diff < -(3 / 2 : ℚ)) else decide ((3 / 2 : ℚ) < diff)

/-- The exceptions that can escape `analyze_full_game`: the `TypeError` from
`None - float` at line 73 when the engine binary is missing, and an engine
exception propagating out of `get_engine_analysis`. -/
inductive PyError where
  | typeError
  | engineError
deriving DecidableEq, Repr

/-- One value of the `data` dictionary built at lines 83-87: the evaluation
after the move, the best move stored for the move, and the blunder flag. -/
structure Sample where
  eval : ℚ
  best_move : Option Move
  is_blunder : Bool
deriving DecidableEq, Repr

/-- The `for i, move in enumerate(moves)` loop of `analyze_full_game`
(src/chess_app.py lines 65-88) as a recursion over the remaining moves.
`board` is the running position, `i` the 0-based index of the next move,
`prev_eval` the previous evaluation, and `data`, `blunders` the accumulators.
Each iteration pushes the move, evaluates the **resulting** position, computes
`diff = curr_eval - prev_eval` (raising `TypeError` when `curr_eval` is `None`,
i.e. when the engine binary is missing, before any sample for this ply is
stored), flags the blunder, appends `i+1` to `blunders` when flagged, and
stores the sample under key `i+1`. -/
def analyzeLoop (stockfishFound : Bool) (engine : Engine) (board : Position)
    (rest : List Move) (i : ℕ) (prev_eval : ℚ)
    (data : List (ℕ × Sample)) (blunders : List ℕ) :
    Except PyError (List (ℕ × Sample) × List ℕ) :=
  match rest with
  | [] => .ok (data, blunders)
  | move :: rest' =>
    let board' := board ++ [move]
    match get_engine_analysis stockfishFound engine board' with
    | .error _ => .error .engineError
    | .ok (currEval?, best_move_obj) =>
      match currEval? with
      | none => .error .typeError
      | some curr_eval =>
        let diff := curr_eval - prev_eval
        let is_blunder := blunderFlag i diff
        let blunders' := if is_blunder then blunders ++ [i + 1] else blunders
        let data' := data ++ [(i + 1, ⟨curr_eval, best_move_obj, is_blunder⟩)]
        analyzeLoop stockfishFound engine board' rest' (i + 1) curr_eval
          data' blunders'

/-- `analyze_full_game(game, depth_limit)` (src/chess_app.py lines 54-92):
starting from the initial position with `prev_eval` hardcoded to `0.0` (line
60; the initial position is never evaluated), walk the mainline moves,
evaluating the position after each move, and return the per-move data
dictionary together with the list of blunder move numbers. The dictionary is
modelled by its association list in insertion order. -/
def analyze_full_game (stockfishFound : Bool) (engine : Engine)
    (moves : List Move) : Except PyError (List (ℕ × Sample) × List ℕ) :=
  analyzeLoop stockfishFound engine [] moves 0 0 [] []

/-- The evaluation that the analyzer compared the sample at list index `j`
against: the previous sample's evaluation, or the hardcoded `0.0` baseline for
the first move. -/
def prevAt (data : List (ℕ × Sample)) (j : ℕ) : ℚ :=
  if j = 0 then 0 else (((data[j-1]?).map fun p => p.2.eval).getD 0)

/-- An engine returning a fixed centipawn score 0 and an empty pv for every
position. -/
def flatEngine : Engine := fun _ => .ok ⟨.cp 0, []⟩

/-- An engine making every move a blunder: the evaluation swings between
`-2.0` (after White's moves) and `0.0` (after Black's moves). -/
def swingEngine : Engine := fun board =>
  .ok ⟨.cp (if board.length % 2 = 1 then -200 else 0), []⟩

/-- The evaluator trace of the concrete scenario in spec §8: centipawn score
20 for the initial position, then -210, -180, -10 for the positions after
moves 1, 2 and 3. -/
def scenarioEngine : Engine := fun board =>
  .ok ⟨.cp (if board.length = 0 then 20 else if board.length = 1 then -210
    else if board.length = 2 then -180 else -10), []⟩

/-- An evaluator trace where the initial position is clearly winning for
White (+2.00) and the position after move 1 is equal (0.00): a first-side
blunder relative to the starting evaluation, invisible against a hardcoded
`0.0` baseline. -/
def zeroBaselineEngine : Engine := fun board =>
  .ok ⟨.cp (if board.length = 0 then 200 else 0), []⟩

/-- An evaluator trace whose best-move suggestion differs between the initial
position (move 10) and the position after the first move (move 20). -/
def bestMoveProbeEngine : Engine := fun board =>
  .ok ⟨.cp 0, if board.length = 0 then [10] else [20]⟩

/-- The data list produced by `analyze_full_game true swingEngine [1, 2]`:
both moves are flagged. -/
def swingData : List (ℕ × Sample) :=
  [(1, ⟨-2, none, true⟩), (2, ⟨0, none, true⟩)]

/-- An engine that responds with a fixed score except on positions of exactly
two plies, where the process fails. -/
def failingEngine : Engine := fun board =>
  if board.length = 2 then .error () else .ok ⟨.cp 0, []⟩

theorem analyzeLoop_nil (stockfishFound : Bool) (engine : Engine)
    (board : Position) (i : ℕ) (prev : ℚ) (data : List (ℕ × Sample))
    (blunders : List ℕ) :
    analyzeLoop stockfishFound engine board [] i prev data blunders =
      .ok (data, blunders) := rfl

theorem analyzeLoop_cons_unavailable (engine : Engine) (board : Position)
    (m : Move) (rest : List Move) (i : ℕ) (prev : ℚ)
    (data : List (ℕ × Sample)) (blunders : List ℕ) :
    analyzeLoop false engine board (m :: rest) i prev data blunders =
      .error .typeError := rfl

theorem analyzeLoop_cons_error (engine : Engine) (board : Position) (m : Move)
    (rest : List Move) (i : ℕ) (prev : ℚ) (data : List (ℕ × Sample))
    (blunders : List ℕ) (e : Unit) (hres : engine (board ++ [m]) = .error e) :
    analyzeLoop true engine board (m :: rest) i prev data blunders =
      .error .engineError := by
  simp [analyzeLoop, get_engine_analysis, hres]

theorem analyzeLoop_cons_ok (engine : Engine) (board : Position) (m : Move)
    (rest : List Move) (i : ℕ) (prev : ℚ) (data : List (ℕ × Sample))
    (blunders : List ℕ) (r : AnalyseResult)
    (hres : engine (board ++ [m]) = .ok r) :
    analyzeLoop true engine board (m :: rest) i prev data blunders =
      analyzeLoop true engine (board ++ [m]) rest (i + 1)
        (normalizeScore r.score)
        (data ++ [(i + 1, ⟨normalizeScore r.score, r.pv.head?,
          blunderFlag i (normalizeScore r.score - prev)⟩)])
        (if blunderFlag i (normalizeScore r.score - prev)
         then blunders ++ [i + 1] else blunders) := by
  simp [analyzeLoop, get_engine_analysis, hres]

theorem getElem_append_left_of_lt {α : Type} (l l' : List α) (j : ℕ)
    (hj : j < l.length) (h2 : j < (l ++ l').length) : (l ++ l')[j] = l[j] := by
  rw [List.getElem_append]
  simp [hj]

theorem getElem_concat_self {α : Type} (l : List α) (x : α)
    (h : l.length < (l ++ [x]).length) : (l ++ [x])[l.length] = x :=
  List.getElem_concat_length l x l.length rfl h

theorem prevAt_zero (data : List (ℕ × Sample)) : prevAt data 0 = 0 := rfl

theorem prevAt_append_of_le (data : List (ℕ × Sample)) (x : ℕ × Sample)
    (j : ℕ) (h : j ≤ data.length) : prevAt (data ++ [x]) j = prevAt data j := by
  unfold prevAt
  rcases Nat.eq_zero_or_pos j with rfl | hj
  · rfl
  · rw [if_neg (by omega), if_neg (by omega), List.getElem?_append,
      if_pos (by omega)]

theorem prevAt_concat_length (data : List (ℕ × Sample)) (x : ℕ × Sample) :
    prevAt (data ++ [x]) (data.length + 1) = x.2.eval := by
  unfold prevAt
  rw [if_neg (by omega)]
  simp

/-- Invariant of the `analyze_full_game` accumulator loop: when the loop
returns normally, the keys of the final data list count up from 1, each
stored blunder flag equals `blunderFlag` applied to the stored evaluation
minus the evaluation the analyzer compared it against, and the final blunder
list is the key list of the flagged samples, provided the incoming
accumulators already satisfy all of this. -/
theorem analyzeLoop_invariant (stockfishFound : Bool) (engine : Engine) :
    ∀ (rest : List Move) (board : Position) (i : ℕ) (prev : ℚ)
      (data : List (ℕ × Sample)) (blunders : List ℕ)
      (d : List (ℕ × Sample)) (b : List ℕ),
      analyzeLoop stockfishFound engine board rest i prev data blunders =
        .ok (d, b) →
      i = data.length →
      prev = prevAt data data.length →
      (∀ j (h : j < data.length), (data[j]).1 = j + 1) →
      (∀ j (h : j < data.length),
        (data[j]).2.is_blunder =
          blunderFlag j ((data[j]).2.eval - prevAt data j)) →
      blunders = (data.filter fun p => p.2.is_blunder).map Prod.fst →
      d.length = data.length + rest.length ∧
      (∀ j (h : j < d.length), (d[j]).1 = j + 1) ∧
      (∀ j (h : j < d.length),
        (d[j]).2.is_blunder = blunderFlag j ((d[j]).2.eval - prevAt d j)) ∧
      b = (d.filter fun p => p.2.is_blunder).map Prod.fst := by
  intro rest
  induction rest with
  | nil =>
    intro board i prev data blunders d b hok hi hprev hkeys hflags hblun
    rw [analyzeLoop_nil] at hok
    simp only [Except.ok.injEq, Prod.mk.injEq] at hok
    obtain ⟨rfl, rfl⟩ := hok
    exact ⟨by simp, hkeys, hflags, hblun⟩
  | cons m rest ih =>
    intro board i prev data blunders d b hok hi hprev hkeys hflags hblun
    cases stockfishFound with
    | false =>
      rw [analyzeLoop_cons_unavailable] at hok
      injection hok
    | true =>
      cases hres : engine (board ++ [m]) with
      | error e =>
        rw [analyzeLoop_cons_error engine board m rest i prev data blunders
          e hres] at hok
        injection hok
      | ok r =>
        rw [analyzeLoop_cons_ok engine board m rest i prev data blunders
          r hres] at hok
        generalize hq : normalizeScore r.score = q at hok
        generalize hbm : r.pv.head? = bm at hok
        obtain ⟨hL, hK, hF, hB⟩ := ih (board ++ [m]) (i + 1) q
          (data ++ [(i + 1, ⟨q, bm, blunderFlag i (q - prev)⟩)])
          (if blunderFlag i (q - prev)
           then blunders ++ [i + 1] else blunders) d b hok
          (by simp [hi])
          (by
            rw [List.length_append, List.length_singleton, hi,
              prevAt_concat_length])
          (by
            intro j h
            have hlt : j < data.length + 1 := by simpa using h
            rcases Nat.lt_or_ge j data.length with hj | hj
            · rw [getElem_append_left_of_lt data _ j hj h]
              exact hkeys j hj
            · have hj' : j = data.length := by omega
              subst hj'
              rw [getElem_concat_self data _ h, hi])
          (by
            intro j h
            have hlt : j < data.length + 1 := by simpa using h
            rcases Nat.lt_or_ge j data.length with hj | hj
            · rw [getElem_append_left_of_lt data _ j hj h,
                prevAt_append_of_le data _ j (by omega)]
              exact hflags j hj
            · have hj' : j = data.length := by omega
              subst hj'
              rw [getElem_concat_self data _ h,
                prevAt_append_of_le data _ data.length le_rfl, ← hprev, ← hi])
          (by
            rw [List.filter_append, List.map_append, ← hblun]
            by_cases hfl : blunderFlag i (q - prev) = true
            · rw [if_pos hfl]
              simp [hfl]
            · simp only [Bool.not_eq_true] at hfl
              simp [hfl])
        exact ⟨by simp at hL ⊢; omega, hK, hF, hB⟩

/-- C8: analyzing a game with a zero-length move sequence returns an empty
sample collection and an empty blunder list as a normal (non-error) result,
whether or not the engine binary was found and whatever the engine does. -/
theorem empty_game_empty_result (stockfishFound : Bool) (engine : Engine) :
    analyze_full_game stockfishFound engine [] = .ok ([], []) := rfl

/-- C7: on the concrete scenario of spec §8 (the evaluator reports 0.20 for
the initial position and -2.10, -1.80, -0.10 after moves 1, 2, 3),
`analyze_full_game` flags move 1 as a blunder and moves 2 and 3 as
non-blunders, so the blunder list is exactly `[1]`. -/
theorem scenario_blunder_set_eq :
    get_engine_analysis true scenarioEngine [] = .ok (some (1/5), none) ∧
    analyze_full_game true scenarioEngine [1, 2, 3] =
      .ok ([(1, ⟨-21/10, none, true⟩), (2, ⟨-9/5, none, false⟩),
        (3, ⟨-1/10, none, false⟩)], [1]) := by
  constructor
  · simp [get_engine_analysis, scenarioEngine, normalizeScore]
    norm_num
  · simp [analyze_full_game, analyzeLoop, get_engine_analysis, blunderFlag,
      scenarioEngine, normalizeScore]
    norm_num

/-- C2 (code bug): the first move's blunder test uses the hardcoded `0.0`
baseline of line 60, not the starting position's evaluation, even though the
evaluator is available. With `zeroBaselineEngine` the initial position
evaluates to +2.00 (first conjunct) and the evaluation after move 1 is 0.00,
a drop of 2.00 that the spec's baseline flags (third conjunct: the blunder
predicate holds for the true diff `0 - 2`), yet the analysis stores
`is_blunder = false` for move 1 because the code computes `diff = 0 - 0.0`
(second conjunct). -/
theorem first_move_baseline_is_hardcoded_zero :
    get_engine_analysis true zeroBaselineEngine [] = .ok (some 2, none) ∧
    analyze_full_game true zeroBaselineEngine [5] =
      .ok ([(1, ⟨0, none, false⟩)], []) ∧
    blunderFlag 0 ((0 : ℚ) - 2) = true := by
  refine ⟨?_, ?_, ?_⟩
  · simp [get_engine_analysis, zeroBaselineEngine, normalizeScore]
    norm_num
  · simp [analyze_full_game, analyzeLoop, get_engine_analysis, blunderFlag,
      zeroBaselineEngine, normalizeScore]
    norm_num
  · simp [blunderFlag]
    norm_num

/-- C3 (code bug): the sample stored for ply 1 records the engine suggestion
for the position *after* the move (line 69 pushes the move before line 70
evaluates), not the pre-move suggestion. With `bestMoveProbeEngine` the
pre-move suggestion is move 10 (first conjunct) but the stored `best_move`
is move 20, the post-move suggestion (second conjunct). -/
theorem best_move_stored_is_post_move_suggestion :
    get_engine_analysis true bestMoveProbeEngine [] = .ok (some 0, some 10) ∧
    analyze_full_game true bestMoveProbeEngine [7] =
      .ok ([(1, ⟨0, some 20, false⟩)], []) := by
  constructor
  · norm_num [get_engine_analysis, bestMoveProbeEngine, normalizeScore]
  · norm_num [analyze_full_game, analyzeLoop, get_engine_analysis,
      blunderFlag, bestMoveProbeEngine, normalizeScore]

/-- C5 (counterexample): when no engine binary can be reached
(`stockfishFound = false`), `get_engine_analysis` does **not** fail with an
error: it returns the pair `(None, None)` as a normal value (first conjunct).
The analysis run then aborts at ply 1 with a `TypeError` from `None - 0.0`,
not with an `EngineUnavailable` error (second conjunct). -/
theorem engine_unavailable_normal_return :
    get_engine_analysis false flatEngine [] = .ok (none, none) ∧
    analyze_full_game false flatEngine [3] = .error .typeError :=
  ⟨rfl, rfl⟩

/-- The loop invariant specialized to a successful `analyze_full_game` run:
one sample per move, key `j + 1` at list index `j`, every flag determined by
`blunderFlag` on the stored evaluation minus the reference evaluation, and
the blunder list derived from the flagged samples. -/
theorem analyze_full_game_ok (stockfishFound : Bool) (engine : Engine)
    (moves : List Move) (data : List (ℕ × Sample)) (blunders : List ℕ)
    (hok : analyze_full_game stockfishFound engine moves =
      .ok (data, blunders)) :
    data.length = moves.length ∧
    (∀ j (h : j < data.length), (data[j]).1 = j + 1) ∧
    (∀ j (h : j < data.length),
      (data[j]).2.is_blunder =
        blunderFlag j ((data[j]).2.eval - prevAt data j)) ∧
    blunders = (data.filter fun p => p.2.is_blunder).map Prod.fst := by
  have h := analyzeLoop_invariant stockfishFound engine moves [] 0 0 [] []
    data blunders hok rfl rfl
    (fun j hj => absurd hj (Nat.not_lt_zero j))
    (fun j hj => absurd hj (Nat.not_lt_zero j)) rfl
  simpa using h

/-- In a successful run the key list of the returned data is exactly
`[1, ..., len(moves)]`. -/
theorem analyze_keys_eq_range (stockfishFound : Bool) (engine : Engine)
    (moves : List Move) (data : List (ℕ × Sample)) (blunders : List ℕ)
    (hok : analyze_full_game stockfishFound engine moves =
      .ok (data, blunders)) :
    data.map Prod.fst = List.range' 1 moves.length := by
  obtain ⟨hlen, hkeys, -, -⟩ :=
    analyze_full_game_ok stockfishFound engine moves data blunders hok
  apply List.ext_getElem
  · simp [hlen]
  · intro j h1 h2
    rw [List.getElem_map, List.getElem_range'_1,
      hkeys j (by simpa using h1)]
    omega

/-- If the engine raises at relative ply `k` of the remaining moves and
responded at every earlier ply, the loop aborts with `engineError`. -/
theorem analyzeLoop_engine_error (engine : Engine) :
    ∀ (rest : List Move) (k : ℕ) (board : Position) (i : ℕ) (prev : ℚ)
      (data : List (ℕ × Sample)) (blunders : List ℕ),
      k < rest.length →
      engine (board ++ rest.take (k + 1)) = .error () →
      (∀ j, j < k → ∃ r, engine (board ++ rest.take (j + 1)) = .ok r) →
      analyzeLoop true engine board rest i prev data blunders =
        .error .engineError := by
  intro rest
  induction rest with
  | nil =>
    intro k board i prev data blunders hk
    exact absurd hk (by simp)
  | cons m rest ih =>
    intro k board i prev data blunders hk herr hbefore
    cases k with
    | zero =>
      exact analyzeLoop_cons_error engine board m rest i prev data blunders
        () (by simpa using herr)
    | succ k' =>
      obtain ⟨r, hr⟩ := hbefore 0 (by omega)
      rw [analyzeLoop_cons_ok engine board m rest i prev data blunders r
        (by simpa using hr)]
      apply ih k' (board ++ [m]) (i + 1) (normalizeScore r.score) _ _
        (by simp at hk ⊢; omega)
        (by simpa [List.append_assoc] using herr)
        (fun j hj => by
          obtain ⟨r', hr'⟩ := hbefore (j + 1) (by omega)
          exact ⟨r', by simpa [List.append_assoc] using hr'⟩)

/-- C1: for every move index `j` (0-based) of a successful analysis, with
`diff` = (evaluation stored for ply `j`) − (the previous evaluation the
analyzer used: the evaluation stored for ply `j-1`, or the ply-0 baseline),
the stored blunder flag is true iff `j` is even (first side moved) and
`diff < -1.5`, or `j` is odd (second side moved) and `diff > 1.5`; so the
flag depends on nothing but `diff` and the parity of `j`. -/
theorem blunder_flag_parity_threshold (stockfishFound : Bool)
    (engine : Engine) (moves : List Move) (data : List (ℕ × Sample))
    (blunders : List ℕ)
    (hok : analyze_full_game stockfishFound engine moves =
      .ok (data, blunders))
    (j : ℕ) (h : j < data.length) :
    (data[j]).2.is_blunder = true ↔
      (j % 2 = 0 ∧ (data[j]).2.eval - prevAt data j < -(3 / 2 : ℚ)) ∨
      (j % 2 = 1 ∧ (3 / 2 : ℚ) < (data[j]).2.eval - prevAt data j) := by
  obtain ⟨-, -, hF, -⟩ :=
    analyze_full_game_ok stockfishFound engine moves data blunders hok
  rw [hF j h]
  unfold blunderFlag
  rcases Nat.mod_two_eq_zero_or_one j with hp | hp <;> simp [hp]

/-- C4: a successful full-game analysis returns exactly one sample per move:
the key list is `[1, ..., len(moves)]` in order, hence every `k` with
`1 ≤ k ≤ len(moves)` occurs exactly once among the keys and no other key
occurs. -/
theorem analyze_keys_contiguous (stockfishFound : Bool) (engine : Engine)
    (moves : List Move) (data : List (ℕ × Sample)) (blunders : List ℕ)
    (hok : analyze_full_game stockfishFound engine moves =
      .ok (data, blunders)) :
    data.map Prod.fst = List.range' 1 moves.length ∧
    ∀ k, (data.map Prod.fst).count k =
      if 1 ≤ k ∧ k ≤ moves.length then 1 else 0 := by
  have hmap := analyze_keys_eq_range stockfishFound engine moves data
    blunders hok
  refine ⟨hmap, fun k => ?_⟩
  rw [hmap]
  by_cases hk : 1 ≤ k ∧ k ≤ moves.length
  · rw [if_pos hk]
    refine List.count_eq_one_of_mem ?_ ?_
    · exact (List.pairwise_lt_range' 1 moves.length).imp fun hab => ne_of_lt hab
    · rw [List.mem_range'_1]
      omega
  · rw [if_neg hk, List.count_eq_zero, List.mem_range'_1]
    omega

/-- C9: the blunder move-number list of a successful run is strictly
ascending (hence duplicate-free), and it is derived from the samples: it is
exactly the key list of the samples whose stored flag is set. -/
theorem blunders_ascending_and_derived (stockfishFound : Bool)
    (engine : Engine) (moves : List Move) (data : List (ℕ × Sample))
    (blunders : List ℕ)
    (hok : analyze_full_game stockfishFound engine moves =
      .ok (data, blunders)) :
    blunders.Pairwise (· < ·) ∧
    blunders = (data.filter fun p => p.2.is_blunder).map Prod.fst := by
  obtain ⟨-, -, -, hB⟩ :=
    analyze_full_game_ok stockfishFound engine moves data blunders hok
  have hmap := analyze_keys_eq_range stockfishFound engine moves data
    blunders hok
  refine ⟨?_, hB⟩
  have hsub : ((data.filter fun p => p.2.is_blunder).map Prod.fst).Sublist
      (data.map Prod.fst) := (List.filter_sublist data).map Prod.fst
  rw [hB]
  refine List.Pairwise.sublist hsub ?_
  rw [hmap]
  exact List.pairwise_lt_range' 1 moves.length

/-- C10: in a successful run the returned per-move data and blunder list are
mutually consistent: a move number `k` is in the blunder list iff the sample
stored under key `k` has its `is_blunder` field set. -/
theorem blunders_iff_flagged (stockfishFound : Bool) (engine : Engine)
    (moves : List Move) (data : List (ℕ × Sample)) (blunders : List ℕ)
    (hok : analyze_full_game stockfishFound engine moves =
      .ok (data, blunders)) :
    ∀ k : ℕ, k ∈ blunders ↔
      ∃ s : Sample, (k, s) ∈ data ∧ s.is_blunder = true := by
  obtain ⟨-, -, -, hB⟩ :=
    analyze_full_game_ok stockfishFound engine moves data blunders hok
  intro k
  rw [hB]
  simp only [List.mem_map, List.mem_filter]
  constructor
  · rintro ⟨⟨k', s⟩, ⟨hmem, hfl⟩, rfl⟩
    exact ⟨s, hmem, hfl⟩
  · rintro ⟨s, hmem, hfl⟩
    exact ⟨(k, s), ⟨hmem, hfl⟩, rfl⟩

/-- C6: whenever the engine responds, `get_engine_analysis` returns the
normalized white-relative evaluation together with the engine's suggested
move: a forced mate for the first side (White, `mate n` with `n > 0`) becomes
the fixed sentinel +99.0, a mate for the second side (`n < 0`) becomes -99.0,
and a non-mate centipawn score `c` becomes `c / 100`. The score that is
normalized is `result["score"].white()`, so the returned evaluation is
first-side-relative regardless of whose move produced the position. -/
theorem score_normalization (engine : Engine) (board : Position)
    (result : AnalyseResult) (hres : engine board = .ok result) :
    (∀ n : ℤ, result.score = .mate n → 0 < n →
      get_engine_analysis true engine board =
        .ok (some 99, result.pv.head?)) ∧
    (∀ n : ℤ, result.score = .mate n → n < 0 →
      get_engine_analysis true engine board =
        .ok (some (-99), result.pv.head?)) ∧
    (∀ c : ℤ, result.score = .cp c →
      get_engine_analysis true engine board =
        .ok (some ((c : ℚ) / 100), result.pv.head?)) := by
  have hga : get_engine_analysis true engine board =
      .ok (some (normalizeScore result.score), result.pv.head?) := by
    simp [get_engine_analysis, hres]
  refine ⟨?_, ?_, ?_⟩
  · intro n hsc hn
    rw [hga, hsc]
    simp [normalizeScore, hn]
  · intro n hsc hn
    rw [hga, hsc]
    simp [normalizeScore, show ¬(0 : ℤ) < n by omega]
  · intro c hsc
    rw [hga, hsc]
    simp [normalizeScore]

/-- C5 (amended): when no engine binary can be reached the evaluator returns
`(None, None)` as a normal value rather than raising; the analysis run over a
non-empty game then fails at ply 1 with a `TypeError`, and an engine
exception during ply `k+1` (after plies `1..k` succeeded) aborts the whole
run with an error carrying no samples at all, so no samples beyond ply `k`
are ever produced and no default score is silently substituted. -/
theorem engine_failure_aborts_run (engine : Engine) :
    (∀ board, get_engine_analysis false engine board = .ok (none, none)) ∧
    (∀ moves : List Move, moves ≠ [] →
      analyze_full_game false engine moves = .error .typeError) ∧
    (∀ (moves : List Move) (k : ℕ), k < moves.length →
      engine (moves.take (k + 1)) = .error () →
      (∀ j, j < k → ∃ r, engine (moves.take (j + 1)) = .ok r) →
      analyze_full_game true engine moves = .error .engineError) := by
  refine ⟨fun board => rfl, ?_, ?_⟩
  · intro moves hne
    cases moves with
    | nil => exact absurd rfl hne
    | cons m rest =>
      exact analyzeLoop_cons_unavailable engine [] m rest 0 0 [] []
  · intro moves k hk herr hbefore
    exact analyzeLoop_engine_error engine moves k [] 0 0 [] [] hk
      (by simpa using herr) (fun j hj => by simpa using hbefore j hj)

/-- Witness for C1: the concrete `swingEngine` run over two moves, at ply
index 0 (a first-side move whose evaluation dropped by 2.0). -/
theorem blunder_flag_parity_threshold_witness :
    ((swingData.get ⟨0, by norm_num [swingData]⟩).2.is_blunder = true ↔
      (0 % 2 = 0 ∧ (swingData.get ⟨0, by norm_num [swingData]⟩).2.eval -
        prevAt swingData 0 < -(3 / 2 : ℚ)) ∨
      (0 % 2 = 1 ∧ (3 / 2 : ℚ) <
        (swingData.get ⟨0, by norm_num [swingData]⟩).2.eval -
          prevAt swingData 0)) :=
  blunder_flag_parity_threshold true swingEngine [1, 2] swingData [1, 2]
    (by norm_num [analyze_full_game, analyzeLoop, get_engine_analysis,
      blunderFlag, swingEngine, normalizeScore, swingData])
    0 (by norm_num [swingData])

/-- Witness for C4: the keys of the concrete `swingEngine` run over two
moves are `[1, 2]`. -/
theorem analyze_keys_contiguous_witness :
    swingData.map Prod.fst = List.range' 1 2 :=
  (analyze_keys_contiguous true swingEngine [1, 2] swingData [1, 2]
    (by norm_num [analyze_full_game, analyzeLoop, get_engine_analysis,
      blunderFlag, swingEngine, normalizeScore, swingData])).1

/-- Witness for C9: the blunder list `[1, 2]` of the concrete `swingEngine`
run is strictly ascending and derived from the flagged samples. -/
theorem blunders_ascending_and_derived_witness :
    List.Pairwise (· < ·) [1, 2] ∧
    [1, 2] = (swingData.filter fun p => p.2.is_blunder).map Prod.fst :=
  blunders_ascending_and_derived true swingEngine [1, 2] swingData [1, 2]
    (by norm_num [analyze_full_game, analyzeLoop, get_engine_analysis,
      blunderFlag, swingEngine, normalizeScore, swingData])

/-- Witness for C10: in the concrete `swingEngine` run, move number 1 is in
the blunder list iff its stored sample is flagged. -/
theorem blunders_iff_flagged_witness :
    (1 ∈ ([1, 2] : List ℕ)) ↔
      ∃ s : Sample, (1, s) ∈ swingData ∧ s.is_blunder = true :=
  blunders_iff_flagged true swingEngine [1, 2] swingData [1, 2]
    (by norm_num [analyze_full_game, analyzeLoop, get_engine_analysis,
      blunderFlag, swingEngine, normalizeScore, swingData]) 1

/-- Witness for C6: an engine reporting mate in 3 for White with suggested
move 11 yields the sentinel evaluation +99.0 and that move. -/
theorem score_normalization_witness :
    get_engine_analysis true (fun _ => .ok ⟨.mate 3, [11]⟩) [] =
      .ok (some 99, some 11) :=
  (score_normalization (fun _ => .ok ⟨.mate 3, [11]⟩) [] ⟨.mate 3, [11]⟩
    rfl).1 3 rfl (by norm_num)

/-- Witness for C5 (amended): `failingEngine` answers plies 1 of a
three-move game and raises at ply 2, aborting the run with `engineError`;
with the binary missing, a one-move game aborts with `typeError`. -/
theorem engine_failure_aborts_run_witness :
    analyze_full_game true failingEngine [4, 5, 6] = .error .engineError ∧
    analyze_full_game false failingEngine [4] = .error .typeError :=
  ⟨(engine_failure_aborts_run failingEngine).2.2 [4, 5, 6] 1 (by norm_num)
      (by norm_num [failingEngine])
      (fun j hj => ⟨⟨.cp 0, []⟩, by
        obtain rfl : j = 0 := by omega
        norm_num [failingEngine]⟩),
    (engine_failure_aborts_run failingEngine).2.1 [4] (by simp)⟩

end ChessApp
